import Mathlib

/-!
A shallow embedding of the growable-array container of src/Vector.h and proofs
of the specification claims about it.

Modelling conventions.  Machine integers (std::size_t) become Nat: the only
arithmetic performed on sizes and capacities is comparison, +1, -, and
doubling, none of which approaches the 2^64 wrap on any reachable value, so
unbounded Nat is a faithful model.  The raw buffer `T* _data` becomes a list of
slots whose length is the allocated capacity; a slot holds `some a` when a T
object is alive in it and `none` when it is raw (allocated but unconstructed)
memory.  The null pointer is the empty list: the container holds a null buffer
exactly when nothing is allocated.  Placement-new into slot i is `List.set i
(some a)`; an explicit destructor call on slot i is `List.set i none`.
Operations that can invoke a throwing element constructor exist in an
instrumented variant carrying a failure oracle (`failAt`), which says which
construction inside the operation throws; `Except.error` is a C++ exception
leaving the operation.  An `Eff` record counts the element-lifetime and
allocation events an operation performs, so that claims about how many objects
were constructed, destroyed, allocated or freed can be stated exactly.
-/

namespace VectorSpec

variable {α : Type}

/-- one slot of the raw buffer: `some a` holds a live object, `none` is raw memory -/
abbrev Slot (α : Type) := Option α

/-- the three data members of `class Vector`: `_capacity`, `_size`, `_data` -/
structure Vector (α : Type) where
  _capacity : Nat
  _size : Nat
  _data : List (Slot α)
deriving DecidableEq

/-- counts of the element-lifetime and allocation events an operation performs -/
structure Eff where
  ctorElem : Nat
  ctorDefault : Nat
  dtor : Nat
  alloc : Nat
  free : Nat
deriving DecidableEq

/-- the event record of an operation that touches no element and no memory -/
def noEff : Eff := ⟨0, 0, 0, 0, 0⟩

/-- the write loop `for (i = lo; i < lo + n; ++i) data[i] = g i;` the common
shape of the construction and destruction loops in the source -/
def writeLoop (g : Nat → Slot α) (data : List (Slot α)) (lo : Nat) : Nat → List (Slot α)
  | 0 => data
  | n+1 => (writeLoop g data lo n).set (lo + n) (g (lo + n))

/-- the relocation / copy loop `for (i = 0; i < n; i++) new (&dst[i]) T(src[i]);`
copy construction and move construction write the same value into the slot -/
def blit (src dst : List (Slot α)) (n : Nat) : List (Slot α) :=
  writeLoop (fun i => src.getD i none) dst 0 n

/-- the destruction loop `for (j = lo; j < lo + n; ++j) data[j].~T();` -/
def destroyFrom (data : List (Slot α)) (lo n : Nat) : List (Slot α) :=
  writeLoop (fun _ => none) data lo n

/-- the default-construction loop of resize growth:
`for (i = lo; i < lo + n; ++i) new (&data[i]) T();` -/
def constructFrom [Inhabited α] (data : List (Slot α)) (lo n : Nat) : List (Slot α) :=
  writeLoop (fun _ => some default) data lo n

/-- `Vector()` — the default constructor: zero capacity, zero size, null buffer -/
def defaultVector : Vector α := ⟨0, 0, []⟩

/-- the container state a successful `reallocate(new_capacity)` leaves behind:
allocate `new_capacity` raw slots, construct the `_size` live elements into
them in order (via `std::move_if_noexcept`), destroy the old elements, free the
old buffer, adopt the new buffer and capacity -/
def reallocated (v : Vector α) (new_capacity : Nat) : Vector α :=
  ⟨new_capacity, v._size, blit v._data (List.replicate new_capacity none) v._size⟩

/-- the event counts of a successful `reallocate`: `_size` element
constructions into the new buffer, `_size` destructor calls on the old buffer,
one `operator new`, one `operator delete` -/
def reallocEff (v : Vector α) : Eff := ⟨v._size, 0, v._size, 1, 1⟩

/-- `reallocate(new_capacity)` on executions where no element construction
throws (the throwing executions are `reallocateF`) -/
def reallocate (v : Vector α) (new_capacity : Nat) : Vector α × Eff :=
  (reallocated v new_capacity, reallocEff v)

/-- `ensure_capacity()`: reallocate to 1 (from capacity 0) or to double the
capacity, and only when `_size == _capacity` -/
def ensure_capacity (v : Vector α) : Vector α × Eff :=
  if v._size = v._capacity then
    reallocate v (if v._capacity = 0 then 1 else v._capacity * 2)
  else (v, noEff)

/-- `push_back(value)` — both overloads construct the new element from `value`
into slot `_size` and then increment `_size`; the copy overload and the move
overload are the same state transformation on the model -/
def push_back (v : Vector α) (value : α) : Vector α × Eff :=
  let v1 := (ensure_capacity v).1
  let e1 := (ensure_capacity v).2
  (⟨v1._capacity, v1._size + 1, v1._data.set v1._size (some value)⟩,
   ⟨e1.ctorElem + 1, e1.ctorDefault, e1.dtor, e1.alloc, e1.free⟩)

/-- `emplace_back(args...)`: `a` is the element value the constructor builds
from the forwarded arguments; the second component is the index that the
returned reference `_data[_size - 1]` points at -/
def emplace_back (v : Vector α) (a : α) : Vector α × Nat :=
  let v1 := (ensure_capacity v).1
  let v2 : Vector α := ⟨v1._capacity, v1._size + 1, v1._data.set v1._size (some a)⟩
  (v2, v2._size - 1)

/-- `pop_back()`: destroy the last element and decrement `_size`, only when
`_size > 0` -/
def pop_back (v : Vector α) : Vector α :=
  if 0 < v._size then ⟨v._capacity, v._size - 1, v._data.set (v._size - 1) none⟩
  else v

/-- `clear()`: destroy slots [0, `_size`), reset `_size` to 0, keep the buffer -/
def clear (v : Vector α) : Vector α × Eff :=
  (⟨v._capacity, 0, destroyFrom v._data 0 v._size⟩, ⟨0, 0, v._size, 0, 0⟩)

/-- `reserve(new_cap)`: return if `new_cap < _size`; reallocate exactly when
`new_cap > _capacity` -/
def reserve (v : Vector α) (new_cap : Nat) : Vector α :=
  if new_cap < v._size then v
  else if v._capacity < new_cap then (reallocate v new_cap).1
  else v

/-- `resize(new_size)` on executions where no default construction throws (the
throwing executions are `resizeF`): destroy the trailing elements when
shrinking; reserve and default-construct the new trailing slots when growing -/
def resize [Inhabited α] (v : Vector α) (new_size : Nat) : Vector α :=
  if v._size > new_size then
    ⟨v._capacity, new_size, destroyFrom v._data new_size (v._size - new_size)⟩
  else if v._size < new_size then
    let v1 := reserve v new_size
    ⟨v1._capacity, new_size, constructFrom v1._data v._size (new_size - v._size)⟩
  else
    ⟨v._capacity, new_size, v._data⟩

/-- `Vector(const Vector& other)` on executions where no copy construction
throws: `_capacity` is initialized to `other._size`, a buffer is allocated only
when that is positive, and the elements are copy-constructed in order -/
def copyCtor (other : Vector α) : Vector α × Eff :=
  if 0 < other._size then
    (⟨other._size, other._size, blit other._data (List.replicate other._size none) other._size⟩,
     ⟨other._size, 0, 0, 1, 0⟩)
  else (⟨other._size, 0, []⟩, noEff)

/-- `Vector(Vector&& other)` (noexcept): steal the three members, zero the
source; no element is constructed, moved or destroyed and nothing is allocated -/
def moveCtor (other : Vector α) : Vector α × Vector α × Eff :=
  (⟨other._capacity, other._size, other._data⟩, ⟨0, 0, []⟩, noEff)

/-- `operator=(Vector&& other)` (noexcept) for distinct objects: `clear()`
destroys the `_size` old elements of the target, the old buffer is freed, the
three members are stolen, the source is zeroed; no element is constructed -/
def moveAssign (self other : Vector α) : Vector α × Vector α × Eff :=
  (⟨other._capacity, other._size, other._data⟩, ⟨0, 0, []⟩, ⟨0, 0, self._size, 0, 1⟩)

/-- `swap(other)` — the three member-wise `std::swap` calls -/
def swap (a b : Vector α) : Vector α × Vector α :=
  (⟨b._capacity, b._size, b._data⟩, ⟨a._capacity, a._size, a._data⟩)

/-- `operator=(const Vector& other)` for distinct objects: copy-and-swap -/
def copyAssign (self other : Vector α) : Vector α :=
  (swap self (copyCtor other).1).1

/-- `operator[](index)` — the checked indexed access; the mutable and the const
overload have the same body and are both modelled by this definition; the
result is the slot the returned reference points at -/
def atAccess (v : Vector α) (index : Nat) : Except String (Slot α) :=
  if v._size ≤ index then .error "index out of range"
  else .ok (v._data.getD index none)

/-- an assignment `v[index] = a` through the reference returned by the mutable
`operator[]` -/
def storeAt (v : Vector α) (index : Nat) (a : α) : Except String (Vector α) :=
  if v._size ≤ index then .error "index out of range"
  else .ok ⟨v._capacity, v._size, v._data.set index (some a)⟩

/-- `VectorIterator`: the wrapped pointer `_pointer`, represented as its
element offset from the buffer base address of the container it points into -/
structure VectorIterator where
  _pointer : Nat
deriving DecidableEq

/-- `begin()` — an iterator at `_data`, offset 0 from the base -/
def beginIt (_v : Vector α) : VectorIterator := ⟨0⟩

/-- `end()` — an iterator at `_data + _size` -/
def endIt (v : Vector α) : VectorIterator := ⟨v._size⟩

/-- the slots visited by iterating from `begin()` to `end()` and dereferencing:
`_data[0], ..., _data[_size - 1]` in order -/
def iterVals (v : Vector α) : List (Slot α) := v._data.take v._size

/-- a thrown exception escaping `reallocate`, with its observable aftermath:
the container (whose members were never written), the contents of the new
buffer at the moment `operator delete` receives it in the catch block, and the
event counts of the failed call -/
structure ReallocThrow (α : Type) where
  stateAfter : Vector α
  freedBuffer : List (Slot α)
  eff : Eff
deriving DecidableEq

/-- `reallocate(new_capacity)` instrumented with a failure oracle: `failAt =
some f` with `f < _size` means the copy/move construction of element `f` into
the new buffer throws after elements [0, f) were constructed; the catch block
then destroys elements [0, f) of the new buffer, frees the new buffer and
rethrows, having never written the members -/
def reallocateF (v : Vector α) (new_capacity : Nat) :
    Option Nat → Except (ReallocThrow α) (Vector α × Eff)
  | some f =>
    if f < v._size then
      .error ⟨v, destroyFrom (blit v._data (List.replicate new_capacity none) f) 0 f,
              ⟨f, 0, f, 1, 1⟩⟩
    else .ok (reallocate v new_capacity)
  | none => .ok (reallocate v new_capacity)

/-- `ensure_capacity` instrumented with the reallocation failure oracle -/
def ensure_capacityF (v : Vector α) (failAt : Option Nat) :
    Except (ReallocThrow α) (Vector α × Eff) :=
  if v._size = v._capacity then
    reallocateF v (if v._capacity = 0 then 1 else v._capacity * 2) failAt
  else .ok (v, noEff)

/-- `push_back` instrumented with the reallocation failure oracle; the
construction of the appended element itself is taken to succeed, since the
claims concern throws during the triggered reallocation -/
def push_backF (v : Vector α) (value : α) (failAt : Option Nat) :
    Except (ReallocThrow α) (Vector α × Eff) :=
  match ensure_capacityF v failAt with
  | .error e => .error e
  | .ok (v1, e1) =>
    .ok (⟨v1._capacity, v1._size + 1, v1._data.set v1._size (some value)⟩,
         ⟨e1.ctorElem + 1, e1.ctorDefault, e1.dtor, e1.alloc, e1.free⟩)

/-- a thrown exception escaping the growth path of `resize`, with its
observable aftermath: the container when the exception leaves (`_size` was
never written), the slot indices default-constructed before the throw, and the
slot indices on which the rollback loop of the catch block
`for (j = curr_size; j < new_size; ++j) _data[j].~T();` invokes the destructor -/
structure ResizeThrow (α : Type) where
  stateAfter : Vector α
  constructedSlots : List Nat
  dtorCalls : List Nat
deriving DecidableEq

/-- `resize(new_size)` instrumented with a failure oracle: `failAt = some t`
with `curr_size ≤ t < new_size` means the default construction `new (&_data[t])
T()` throws after slots [curr_size, t) were constructed -/
def resizeF [Inhabited α] (v : Vector α) (new_size : Nat) (failAt : Option Nat) :
    Except (ResizeThrow α) (Vector α) :=
  if v._size > new_size then
    .ok ⟨v._capacity, new_size, destroyFrom v._data new_size (v._size - new_size)⟩
  else
    let v1 := if v._size < new_size then reserve v new_size else v
    match failAt with
    | some t =>
      if v._size ≤ t ∧ t < new_size then
        .error ⟨⟨v1._capacity, v._size,
                 destroyFrom (constructFrom v1._data v._size (t - v._size)) v._size
                   (new_size - v._size)⟩,
                List.range' v._size (t - v._size),
                List.range' v._size (new_size - v._size)⟩
      else .ok ⟨v1._capacity, new_size, constructFrom v1._data v._size (new_size - v._size)⟩
    | none => .ok ⟨v1._capacity, new_size, constructFrom v1._data v._size (new_size - v._size)⟩

/-- the abstract contents after `resize(n)`: truncate when shrinking, pad with
default-constructed elements when growing -/
def resizeAbs [Inhabited α] (l : List α) (n : Nat) : List α :=
  if n < l.length then l.take n else l ++ List.replicate (n - l.length) default

/-- the representation invariant, indexed by the abstract contents `l`: the
buffer has exactly `_capacity` slots, `_size` of them fit, and the first
`_size` slots hold live objects carrying the values of `l` in order -/
abbrev Inv (l : List α) (v : Vector α) : Prop :=
  v._data.length = v._capacity ∧ v._size ≤ v._capacity ∧ iterVals v = l.map some

/-- the container states reachable by sequences of public operations that
complete without an exception, indexed by the abstract contents: the element
values in append order -/
inductive Reaches [Inhabited α] : List α → Vector α → Prop where
  | init : Reaches [] defaultVector
  | push (l v a) : Reaches l v → Reaches (l ++ [a]) (push_back v a).1
  | emplace (l v a) : Reaches l v → Reaches (l ++ [a]) (emplace_back v a).1
  | pop (l v) : Reaches l v → Reaches l.dropLast (pop_back v)
  | clearOp (l v) : Reaches l v → Reaches [] (clear v).1
  | reserveOp (l v n) : Reaches l v → Reaches l (reserve v n)
  | resizeOp (l v n) : Reaches l v → Reaches (resizeAbs l n) (resize v n)
  | store (l v i a w) : Reaches l v → storeAt v i a = .ok w → Reaches (l.set i a) w
  | copy (l v) : Reaches l v → Reaches l (copyCtor v).1
  | copyAsgn (l v m w) : Reaches l v → Reaches m w → Reaches m (copyAssign v w)
  | moveTarget (l v) : Reaches l v → Reaches l (moveCtor v).1
  | moveSource (l v) : Reaches l v → Reaches [] (moveCtor v).2.1
  | moveAsgnTarget (l v m w) : Reaches l v → Reaches m w → Reaches m (moveAssign v w).1
  | moveAsgnSource (l v m w) : Reaches l v → Reaches m w → Reaches [] (moveAssign v w).2.1
  | swapLeft (l v m w) : Reaches l v → Reaches m w → Reaches m (swap v w).1
  | swapRight (l v m w) : Reaches l v → Reaches m w → Reaches l (swap v w).2

/-- the driver `Vector<int> test` of src/main.cpp after the six `push_back`
calls with 1, 4, 3, 2, 1, 0 -/
def demo6 : Vector Int :=
  (push_back (push_back (push_back (push_back (push_back (push_back defaultVector
    1).1 4).1 3).1 2).1 1).1 0).1

/-- the driver vector after the two `pop_back()` calls -/
def demo4 : Vector Int := pop_back (pop_back demo6)

/-- the driver vector after `test[0] = 99` -/
def demoS1 : Vector Int :=
  match storeAt demo4 0 99 with
  | .ok u => u
  | .error _ => demo4

/-- the driver vector after `test[1] = 67` -/
def demoS2 : Vector Int :=
  match storeAt demoS1 1 67 with
  | .ok u => u
  | .error _ => demoS1

/-- the driver vector after `clear()` -/
def demoCleared : Vector Int := (clear demoS2).1

/-- the driver vector after the final `pop_back()` on the now-empty vector -/
def demoFinal : Vector Int := pop_back demoCleared

theorem writeLoop_length (g : Nat → Slot α) (data : List (Slot α)) (lo : Nat) :
    ∀ n, (writeLoop g data lo n).length = data.length
  | 0 => rfl
  | n+1 => by simp [writeLoop, writeLoop_length g data lo n]

theorem writeLoop_eq (g : Nat → Slot α) (data : List (Slot α)) (lo : Nat) :
    ∀ n, lo + n ≤ data.length →
      writeLoop g data lo n = data.take lo ++ (List.range' lo n).map g ++ data.drop (lo + n)
  | 0, _ => by simp [writeLoop]
  | n+1, h => by
    have hn : lo + n ≤ data.length := by omega
    have hlt : lo + n < data.length := by omega
    have hlen : (data.take lo ++ (List.range' lo n).map g).length = lo + n := by
      simp only [List.length_append, List.length_take, List.length_map, List.length_range']
      omega
    rw [writeLoop, writeLoop_eq g data lo n hn, List.set_append, hlen]
    rw [if_neg (by omega), Nat.sub_self, List.drop_eq_getElem_cons hlt]
    rw [List.range'_concat]
    simp only [List.set_cons_zero, one_mul, List.map_append, List.map_cons, List.map_nil,
      List.append_assoc, List.singleton_append, List.cons_append, List.nil_append]
    rfl

theorem range_map_getD (src : List (Slot α)) (n : Nat) (h : n ≤ src.length) :
    (List.range' 0 n).map (fun i => src.getD i none) = src.take n := by
  apply List.ext_getElem
  · simp [List.length_take]
    omega
  · intro i h1 h2
    have hi : i < src.length := by
      simp [List.length_take] at h2
      omega
    simp [List.getD_eq_getElem?_getD, List.getElem?_eq_getElem hi]

theorem blit_eq (src dst : List (Slot α)) (n : Nat) (hs : n ≤ src.length) (hd : n ≤ dst.length) :
    blit src dst n = src.take n ++ dst.drop n := by
  unfold blit
  rw [writeLoop_eq _ _ _ _ (by omega : 0 + n ≤ dst.length), range_map_getD src n hs]
  simp

theorem destroyFrom_eq (data : List (Slot α)) (lo n : Nat) (h : lo + n ≤ data.length) :
    destroyFrom data lo n = data.take lo ++ List.replicate n none ++ data.drop (lo + n) := by
  unfold destroyFrom
  rw [writeLoop_eq _ _ _ _ h]
  simp

theorem constructFrom_eq [Inhabited α] (data : List (Slot α)) (lo n : Nat)
    (h : lo + n ≤ data.length) :
    constructFrom data lo n
      = data.take lo ++ List.replicate n (some default) ++ data.drop (lo + n) := by
  unfold constructFrom
  rw [writeLoop_eq _ _ _ _ h]
  simp

theorem take_succ_set (data : List (Slot α)) (i : Nat) (x : Slot α) (h : i < data.length) :
    (data.set i x).take (i+1) = data.take i ++ [x] := by
  induction data generalizing i with
  | nil => simp at h
  | cons b t ih =>
    cases i with
    | zero => simp
    | succ i =>
      simp only [List.set_cons_succ, List.take_succ_cons, List.cons_append]
      rw [ih i (by simpa using h)]

theorem Inv.size_eq {l : List α} {v : Vector α} (h : Inv l v) : v._size = l.length := by
  obtain ⟨hlen, hle, hvals⟩ := h
  have h2 := congrArg List.length hvals
  simp only [iterVals, List.length_take, List.length_map] at h2
  omega

theorem Inv.blit_fresh {l : List α} {v : Vector α} (h : Inv l v) {n : Nat} (hn : v._size ≤ n) :
    Inv l ⟨n, v._size, blit v._data (List.replicate n none) v._size⟩ := by
  obtain ⟨hlen, hle, hvals⟩ := h
  have hs : v._size ≤ v._data.length := by omega
  refine ⟨?_, hn, ?_⟩
  · simp [blit, writeLoop_length]
  · show (blit v._data (List.replicate n none) v._size).take v._size = l.map some
    rw [blit_eq _ _ _ hs (by simpa using hn)]
    rw [List.take_left' (by simp [List.length_take]; omega)]
    exact hvals

theorem ensure_spec {l : List α} {v : Vector α} (h : Inv l v) :
    Inv l (ensure_capacity v).1 ∧ (ensure_capacity v).1._size < (ensure_capacity v).1._capacity ∧
      (ensure_capacity v).1._size = v._size ∧ v._capacity ≤ (ensure_capacity v).1._capacity := by
  unfold ensure_capacity
  by_cases hc : v._size = v._capacity
  · rw [if_pos hc]
    have hm1 : v._size < (if v._capacity = 0 then 1 else v._capacity * 2) := by
      by_cases h0 : v._capacity = 0
      · rw [if_pos h0]
        omega
      · rw [if_neg h0]
        omega
    have hm2 : v._capacity ≤ (if v._capacity = 0 then 1 else v._capacity * 2) := by
      by_cases h0 : v._capacity = 0
      · rw [if_pos h0]
        omega
      · rw [if_neg h0]
        omega
    exact ⟨h.blit_fresh (Nat.le_of_lt hm1), hm1, rfl, hm2⟩
  · rw [if_neg hc]
    exact ⟨h, Nat.lt_of_le_of_ne h.2.1 hc, rfl, Nat.le_refl _⟩

theorem Inv.push {l : List α} {v : Vector α} (h : Inv l v) (a : α) :
    Inv (l ++ [a]) (push_back v a).1 := by
  obtain ⟨h1, h2, _, _⟩ := ensure_spec h
  obtain ⟨hlen, hle, hvals⟩ := h1
  refine ⟨?_, ?_, ?_⟩
  · show ((ensure_capacity v).1._data.set (ensure_capacity v).1._size (some a)).length = _
    simpa using hlen
  · show (ensure_capacity v).1._size + 1 ≤ (ensure_capacity v).1._capacity
    omega
  · show ((ensure_capacity v).1._data.set (ensure_capacity v).1._size (some a)).take
        ((ensure_capacity v).1._size + 1) = (l ++ [a]).map some
    rw [take_succ_set _ _ _ (by omega)]
    have hv : (ensure_capacity v).1._data.take (ensure_capacity v).1._size = l.map some := hvals
    rw [hv]
    simp

theorem emplace_fst (v : Vector α) (a : α) : (emplace_back v a).1 = (push_back v a).1 := rfl

theorem Inv.pop {l : List α} {v : Vector α} (h : Inv l v) : Inv l.dropLast (pop_back v) := by
  have hsz := h.size_eq
  obtain ⟨hlen, hle, hvals⟩ := h
  have hv : v._data.take v._size = l.map some := hvals
  unfold pop_back
  by_cases h0 : 0 < v._size
  · rw [if_pos h0]
    refine ⟨?_, ?_, ?_⟩
    · show (v._data.set (v._size - 1) none).length = v._capacity
      simpa using hlen
    · show v._size - 1 ≤ v._capacity
      omega
    show (v._data.set (v._size - 1) none).take (v._size - 1) = l.dropLast.map some
    rw [List.set_take, List.set_eq_of_length_le (by simp [List.length_take])]
    have h3 : v._data.take (v._size - 1) = (v._data.take v._size).take (v._size - 1) := by
      rw [List.take_take]
      congr 1
      omega
    rw [h3, hv, ← List.map_take, List.dropLast_eq_take, hsz]
  · rw [if_neg h0]
    have hl : l = [] := List.eq_nil_of_length_eq_zero (by omega)
    subst hl
    exact ⟨hlen, hle, hvals⟩

theorem Inv.clearOp {l : List α} {v : Vector α} (h : Inv l v) : Inv [] (clear v).1 := by
  refine ⟨?_, Nat.zero_le _, ?_⟩
  · show (destroyFrom v._data 0 v._size).length = v._capacity
    rw [destroyFrom, writeLoop_length]
    exact h.1
  · show (destroyFrom v._data 0 v._size).take 0 = ([] : List α).map some
    simp

theorem reserve_cap {v : Vector α} {n : Nat} (h : v._size ≤ n) : n ≤ (reserve v n)._capacity := by
  unfold reserve
  by_cases h1 : n < v._size
  · exact absurd h1 (by omega)
  · rw [if_neg h1]
    by_cases h2 : v._capacity < n
    · rw [if_pos h2]
      exact Nat.le_refl n
    · rw [if_neg h2]
      omega

theorem Inv.reserveInv {l : List α} {v : Vector α} (h : Inv l v) (n : Nat) :
    Inv l (reserve v n) := by
  unfold reserve
  by_cases h1 : n < v._size
  · rw [if_pos h1]
    exact h
  · rw [if_neg h1]
    by_cases h2 : v._capacity < n
    · rw [if_pos h2]
      exact h.blit_fresh (Nat.le_trans h.2.1 (Nat.le_of_lt h2))
    · rw [if_neg h2]
      exact h

theorem reserve_size (v : Vector α) (n : Nat) : (reserve v n)._size = v._size := by
  unfold reserve
  by_cases h1 : n < v._size
  · rw [if_pos h1]
  · rw [if_neg h1]
    by_cases h2 : v._capacity < n
    · rw [if_pos h2]
      rfl
    · rw [if_neg h2]

theorem Inv.resizeInv [Inhabited α] {l : List α} {v : Vector α} (h : Inv l v) (n : Nat) :
    Inv (resizeAbs l n) (resize v n) := by
  have hsz := h.size_eq
  obtain ⟨hlen, hle, hvals⟩ := h
  have hv : v._data.take v._size = l.map some := hvals
  unfold resize resizeAbs
  by_cases h1 : v._size > n
  · rw [if_pos h1, if_pos (by omega)]
    refine ⟨?_, ?_, ?_⟩
    · show (destroyFrom v._data n (v._size - n)).length = v._capacity
      rw [destroyFrom, writeLoop_length]
      exact hlen
    · show n ≤ v._capacity
      omega
    show (destroyFrom v._data n (v._size - n)).take n = (l.take n).map some
    rw [destroyFrom_eq _ _ _ (by omega), List.append_assoc]
    rw [List.take_left' (by simp [List.length_take]; omega)]
    have h3 : v._data.take n = (v._data.take v._size).take n := by
      rw [List.take_take]
      congr 1
      omega
    rw [h3, hv, ← List.map_take]
  · rw [if_neg h1]
    by_cases h2 : v._size < n
    · rw [if_pos h2, if_neg (by omega)]
      show Inv (l ++ List.replicate (n - l.length) default)
        ⟨(reserve v n)._capacity, n, constructFrom (reserve v n)._data v._size (n - v._size)⟩
      have hwInv : Inv l (reserve v n) := Inv.reserveInv ⟨hlen, hle, hvals⟩ n
      have hwcap : n ≤ (reserve v n)._capacity := reserve_cap (by omega)
      have hwsize : (reserve v n)._size = v._size := reserve_size v n
      obtain ⟨wlen, wle, wvals⟩ := hwInv
      have hwv : (reserve v n)._data.take (reserve v n)._size = l.map some := wvals
      rw [hwsize] at hwv
      refine ⟨?_, ?_, ?_⟩
      · show (constructFrom (reserve v n)._data v._size (n - v._size)).length
          = (reserve v n)._capacity
        rw [constructFrom, writeLoop_length]
        exact wlen
      · show n ≤ (reserve v n)._capacity
        exact hwcap
      dsimp only [iterVals]
      rw [constructFrom_eq _ _ _ (by omega)]
      rw [List.take_left' (by simp [List.length_take]; omega)]
      rw [hwv, List.map_append, List.map_replicate, hsz]
    · rw [if_neg h2, if_neg (by omega)]
      have hn : v._size = n := by omega
      refine ⟨?_, ?_, ?_⟩
      · show v._data.length = v._capacity
        exact hlen
      · show n ≤ v._capacity
        omega
      dsimp only [iterVals]
      have h4 : n - l.length = 0 := by omega
      rw [h4, ← hn, hv]
      simp

theorem Inv.storeInv {l : List α} {v w : Vector α} {i : Nat} {a : α} (h : Inv l v)
    (hst : storeAt v i a = .ok w) : Inv (l.set i a) w := by
  obtain ⟨hlen, hle, hvals⟩ := h
  have hv : v._data.take v._size = l.map some := hvals
  unfold storeAt at hst
  by_cases hi : v._size ≤ i
  · rw [if_pos hi] at hst
    exact absurd hst (by simp)
  · rw [if_neg hi] at hst
    injection hst with hw
    subst hw
    refine ⟨?_, hle, ?_⟩
    · show (v._data.set i (some a)).length = v._capacity
      simpa using hlen
    show (v._data.set i (some a)).take v._size = (l.set i a).map some
    rw [List.set_take, hv, List.map_set]

theorem Inv.copyInv {l : List α} {v : Vector α} (h : Inv l v) : Inv l (copyCtor v).1 := by
  have hsz := h.size_eq
  unfold copyCtor
  by_cases h0 : 0 < v._size
  · rw [if_pos h0]
    exact h.blit_fresh (Nat.le_refl _)
  · rw [if_neg h0]
    have hl : l = [] := List.eq_nil_of_length_eq_zero (by omega)
    subst hl
    refine ⟨?_, Nat.zero_le _, ?_⟩
    · show ([] : List (Slot α)).length = v._size
      simp
      omega
    show (([] : List (Slot α)).take 0) = ([] : List α).map some
    simp

theorem moveCtor_fst (v : Vector α) : (moveCtor v).1 = v := rfl

theorem swap_fst (a b : Vector α) : (swap a b).1 = b := rfl

theorem swap_snd (a b : Vector α) : (swap a b).2 = a := rfl

theorem moveAssign_fst (s o : Vector α) : (moveAssign s o).1 = o := rfl

theorem copyAssign_eq (s o : Vector α) : copyAssign s o = (copyCtor o).1 := rfl

theorem reaches_inv [Inhabited α] {l : List α} {v : Vector α} (h : Reaches l v) : Inv l v := by
  induction h with
  | init => exact ⟨rfl, Nat.le_refl 0, rfl⟩
  | push l v a _ ih => exact ih.push a
  | emplace l v a _ ih =>
    rw [emplace_fst]
    exact ih.push a
  | pop l v _ ih => exact ih.pop
  | clearOp l v _ ih => exact ih.clearOp
  | reserveOp l v n _ ih => exact ih.reserveInv n
  | resizeOp l v n _ ih => exact ih.resizeInv n
  | store l v i a w _ hst ih => exact ih.storeInv hst
  | copy l v _ ih => exact ih.copyInv
  | copyAsgn l v m w _ _ _ ih2 =>
    rw [copyAssign_eq]
    exact ih2.copyInv
  | moveTarget l v _ ih =>
    rw [moveCtor_fst]
    exact ih
  | moveSource l v _ _ => exact ⟨rfl, Nat.le_refl 0, rfl⟩
  | moveAsgnTarget l v m w _ _ _ ih2 =>
    rw [moveAssign_fst]
    exact ih2
  | moveAsgnSource l v m w _ _ _ _ => exact ⟨rfl, Nat.le_refl 0, rfl⟩
  | swapLeft l v m w _ _ _ ih2 =>
    rw [swap_fst]
    exact ih2
  | swapRight l v m w _ _ ih1 _ =>
    rw [swap_snd]
    exact ih1

theorem freed_all_none (src : List (Slot α)) (m f : Nat) (hf : f ≤ m) :
    ∀ s ∈ destroyFrom (blit src (List.replicate m none) f) 0 f, s = none := by
  intro s hs
  have hb : (blit src (List.replicate m (none : Slot α)) f).length = m := by
    simp [blit, writeLoop_length]
  have hdrop : (blit src (List.replicate m (none : Slot α)) f).drop f
      = List.replicate (m - f) none := by
    unfold blit
    rw [writeLoop_eq _ _ _ _ (by simpa using hf)]
    simp only [List.take_zero, List.nil_append, Nat.zero_add]
    rw [List.drop_left' (by simp)]
    simp
  rw [destroyFrom_eq _ _ _ (by omega)] at hs
  simp only [List.take_zero, List.nil_append, List.mem_append, Nat.zero_add, hdrop] at hs
  rcases hs with hs | hs
  · exact List.eq_of_mem_replicate hs
  · exact List.eq_of_mem_replicate hs

/-- Claim C1 is refuted by the code (code bug): in the growth path of
`resize(n)`, when the default construction of a trailing element throws, the
rollback loop of the catch handler destroys every slot j in
[curr_size, new_size), not only the slots constructed so far in this call.
Concretely: a vector holding one int (value 7, capacity 1) resized to 3, where
the construction at slot 2 throws after slot 1 was constructed, rolls back with
destructor calls on slots 1 and 2, although only slot 1 was constructed in this
call and slot 2 never held an object (its slot is still raw when the destructor
runs on it).  The element in slot 0 does remain live and untouched and the
exception does propagate, as the claim says. -/
theorem resize_rollback_destroys_unconstructed :
    resizeF (⟨1, 1, [some (7 : Int)]⟩ : Vector Int) 3 (some 2) =
      .error ⟨⟨3, 1, [some 7, none, none]⟩, [1], [1, 2]⟩ ∧
    (constructFrom (reserve (⟨1, 1, [some (7 : Int)]⟩ : Vector Int) 3)._data 1 1).getD 2 none
      = none ∧
    ([1, 2] : List Nat) ≠ ([1] : List Nat) := by
  refine ⟨rfl, rfl, by decide⟩

/-- Claim C2: if a construction into the new buffer throws during the
reallocation triggered by an append, everything constructed so far in the new
buffer is destroyed (the buffer handed to operator delete holds no live
object), the new buffer is freed, the exception is rethrown, and the container
afterwards is exactly the pre-append container: pre-append size, pre-append
capacity, all originally-live elements untouched; the f constructions into the
new buffer are balanced by f destructions, so the count of live element
instances is back at its pre-operation value. -/
theorem realloc_rollback {v : Vector α} {f : Nat} (a : α)
    (htrig : v._size = v._capacity) (hf : f < v._size) :
    ∃ r : ReallocThrow α,
      push_backF v a (some f) = .error r ∧
      r.stateAfter = v ∧
      (∀ s ∈ r.freedBuffer, s = none) ∧
      r.eff.ctorElem = f ∧ r.eff.dtor = f ∧ r.eff.alloc = 1 ∧ r.eff.free = 1 := by
  have hcap0 : ¬ v._capacity = 0 := by omega
  have hre : ensure_capacityF v (some f)
      = .error ⟨v, destroyFrom (blit v._data (List.replicate (v._capacity * 2) none) f) 0 f,
                ⟨f, 0, f, 1, 1⟩⟩ := by
    unfold ensure_capacityF
    rw [if_pos htrig, if_neg hcap0]
    simp only [reallocateF]
    rw [if_pos hf]
  have hstep : push_backF v a (some f)
      = .error ⟨v, destroyFrom (blit v._data (List.replicate (v._capacity * 2) none) f) 0 f,
                ⟨f, 0, f, 1, 1⟩⟩ := by
    unfold push_backF
    rw [hre]
  refine ⟨_, hstep, rfl, ?_, rfl, rfl, rfl, rfl⟩
  exact freed_all_none v._data (v._capacity * 2) f (by omega)

/-- witness for realloc_rollback: a vector of capacity 2 holding 1 and 2; the
relocation of element 1 into the new buffer throws during the push_back of 3 -/
theorem realloc_rollback_witness :
    ∃ r : ReallocThrow Int,
      push_backF (⟨2, 2, [some 1, some 2]⟩ : Vector Int) 3 (some 1) = .error r ∧
      r.stateAfter = (⟨2, 2, [some 1, some 2]⟩ : Vector Int) ∧
      (∀ s ∈ r.freedBuffer, s = none) ∧
      r.eff.ctorElem = 1 ∧ r.eff.dtor = 1 ∧ r.eff.alloc = 1 ∧ r.eff.free = 1 :=
  realloc_rollback 3 rfl (by decide)

/-- Claim C3: every container state reachable by a sequence of public
operations that complete without an exception has size ≤ capacity, and its
first size slots hold live elements whose values are, in order, exactly the
abstract contents accumulated in append order. -/
theorem reachable_size_le_capacity_and_contents [Inhabited α] {l : List α} {v : Vector α}
    (h : Reaches l v) : v._size ≤ v._capacity ∧ iterVals v = l.map some :=
  ⟨(reaches_inv h).2.1, (reaches_inv h).2.2⟩

/-- witness for reachable_size_le_capacity_and_contents: the vector obtained by
one push_back of 1 onto the default-constructed vector -/
theorem reachable_size_le_capacity_and_contents_witness :
    (push_back (defaultVector : Vector Int) 1).1._size
        ≤ (push_back (defaultVector : Vector Int) 1).1._capacity ∧
      iterVals (push_back (defaultVector : Vector Int) 1).1 = ([] ++ [(1 : Int)]).map some :=
  reachable_size_le_capacity_and_contents (Reaches.push [] defaultVector 1 Reaches.init)

/-- Claim C4: an append reallocates only when size = capacity; when it does,
the new capacity is 1 if the capacity was 0 and twice the capacity otherwise;
hence capacity never decreases across appends; emplace_back grows exactly like
push_back. -/
theorem append_growth_policy (v : Vector α) (a : α) :
    (v._size ≠ v._capacity →
      (push_back v a).1._capacity = v._capacity ∧ (push_back v a).2.alloc = 0) ∧
    (v._size = v._capacity →
      (push_back v a).1._capacity = (if v._capacity = 0 then 1 else 2 * v._capacity) ∧
      (push_back v a).2.alloc = 1) ∧
    v._capacity ≤ (push_back v a).1._capacity ∧
    (emplace_back v a).1._capacity = (push_back v a).1._capacity := by
  have h1 : (push_back v a).1._capacity
      = (if v._size = v._capacity then (if v._capacity = 0 then 1 else v._capacity * 2)
         else v._capacity) := by
    by_cases hc : v._size = v._capacity <;>
      simp [push_back, ensure_capacity, reallocate, reallocated, hc]
  have h2 : (push_back v a).2.alloc = (if v._size = v._capacity then 1 else 0) := by
    by_cases hc : v._size = v._capacity <;>
      simp [push_back, ensure_capacity, reallocate, reallocEff, noEff, hc]
  refine ⟨fun h => ?_, fun h => ?_, ?_, rfl⟩
  · rw [h1, h2, if_neg h, if_neg h]
    exact ⟨rfl, rfl⟩
  · rw [h1, h2, if_pos h, if_pos h]
    refine ⟨?_, rfl⟩
    by_cases h0 : v._capacity = 0
    · rw [if_pos h0, if_pos h0]
    · rw [if_neg h0, if_neg h0, Nat.mul_comm]
  · rw [h1]
    by_cases hc : v._size = v._capacity
    · rw [if_pos hc]
      by_cases h0 : v._capacity = 0
      · rw [if_pos h0]
        omega
      · rw [if_neg h0]
        omega
    · rw [if_neg hc]

/-- witness for append_growth_policy: pushing onto the default vector moves the
capacity from 0 to 1 -/
theorem append_growth_policy_witness :
    (push_back (defaultVector : Vector Int) 5).1._capacity
      = (if (defaultVector : Vector Int)._capacity = 0 then 1
         else 2 * (defaultVector : Vector Int)._capacity) :=
  ((append_growth_policy (defaultVector : Vector Int) 5).2.1 rfl).1

/-- Claim C5: checked indexed access (the mutable and the read-only overload
share one body) signals the out-of-bounds error exactly when index ≥ size, and
for every index < size returns the live element stored at that index. -/
theorem at_checked {l : List α} {v : Vector α} (h : Inv l v) (index : Nat) :
    (v._size ≤ index → atAccess v index = .error "index out of range") ∧
    (index < v._size → ∃ a, atAccess v index = .ok (some a) ∧ l[index]? = some a) := by
  obtain ⟨hlen, hle, hvals⟩ := h
  have hv : v._data.take v._size = l.map some := hvals
  have hsz : v._size = l.length := Inv.size_eq ⟨hlen, hle, hvals⟩
  constructor
  · intro hge
    unfold atAccess
    rw [if_pos hge]
  · intro hlt
    have hil : index < l.length := by omega
    refine ⟨l.get ⟨index, hil⟩, ?_, ?_⟩
    · unfold atAccess
      rw [if_neg (by omega)]
      have h6 : (v._data.take v._size).getD index none = (l.map some).getD index none := by
        rw [hv]
      rw [List.getD_eq_getElem?_getD, List.getD_eq_getElem?_getD,
        List.getElem?_take_of_lt hlt, List.getElem?_map,
        List.getElem?_eq_getElem hil] at h6
      rw [List.getD_eq_getElem?_getD, h6]
      simp
    · simp [List.getElem?_eq_getElem hil]

/-- witness for at_checked: a one-element vector holding 5; index 1 errors,
index 0 returns the element -/
theorem at_checked_witness :
    atAccess (⟨1, 1, [some (5 : Int)]⟩ : Vector Int) 1 = .error "index out of range" ∧
    (∃ a, atAccess (⟨1, 1, [some (5 : Int)]⟩ : Vector Int) 0 = .ok (some a)
      ∧ [(5 : Int)][0]? = some a) :=
  ⟨(at_checked (l := [(5 : Int)]) (by decide) 1).1 (by decide),
   (at_checked (l := [(5 : Int)]) (by decide) 0).2 (by decide)⟩

/-- Claim C6: move construction and move assignment transfer the buffer as a
whole — no element is copy- or move-constructed and none of the transferred
elements is destroyed — and are modelled as total functions (noexcept in the
source); the destination takes over exactly the prior capacity, size and buffer
of the source, and the source ends with size 0, capacity 0 and begin() equal to
end(). -/
theorem move_transfer (v w : Vector α) :
    (moveCtor v).1 = ⟨v._capacity, v._size, v._data⟩ ∧
    (moveCtor v).2.1._size = 0 ∧ (moveCtor v).2.1._capacity = 0 ∧
    beginIt (moveCtor v).2.1 = endIt (moveCtor v).2.1 ∧
    (moveCtor v).2.2.ctorElem = 0 ∧ (moveCtor v).2.2.ctorDefault = 0 ∧
    (moveAssign w v).1 = ⟨v._capacity, v._size, v._data⟩ ∧
    (moveAssign w v).2.1._size = 0 ∧ (moveAssign w v).2.1._capacity = 0 ∧
    beginIt (moveAssign w v).2.1 = endIt (moveAssign w v).2.1 ∧
    (moveAssign w v).2.2.ctorElem = 0 ∧ (moveAssign w v).2.2.ctorDefault = 0 :=
  ⟨rfl, rfl, rfl, rfl, rfl, rfl, rfl, rfl, rfl, rfl, rfl, rfl⟩

/-- Claim C7: clear() performs exactly size destructor calls, zeroes the size,
and preserves the capacity; a following append that fits in the retained
capacity neither allocates nor changes the capacity. -/
theorem clear_preserves_capacity (v : Vector α) (a : α) :
    (clear v).2.dtor = v._size ∧
    (clear v).1._size = 0 ∧
    (clear v).1._capacity = v._capacity ∧
    (0 < v._capacity →
      (push_back (clear v).1 a).2.alloc = 0 ∧
      (push_back (clear v).1 a).1._capacity = v._capacity) := by
  refine ⟨rfl, rfl, rfl, fun h => ?_⟩
  have hne : ¬ ((clear v).1._size = (clear v).1._capacity) := by
    show ¬ (0 = v._capacity)
    omega
  constructor
  · show (ensure_capacity (clear v).1).2.alloc = 0
    unfold ensure_capacity
    rw [if_neg hne]
    rfl
  · show (ensure_capacity (clear v).1).1._capacity = v._capacity
    unfold ensure_capacity
    rw [if_neg hne]
    rfl

/-- witness for clear_preserves_capacity: clearing a one-element vector and
pushing again reuses the retained capacity 1 with no allocation -/
theorem clear_preserves_capacity_witness :
    (push_back (clear (⟨1, 1, [some (3 : Int)]⟩ : Vector Int)).1 7).2.alloc = 0 :=
  ((clear_preserves_capacity (⟨1, 1, [some (3 : Int)]⟩ : Vector Int) 7).2.2.2 (by decide)).1

/-- Claim C8: the end-to-end scenario of src/main.cpp: pushing 1, 4, 3, 2, 1, 0
onto an empty vector gives size 6; two pop_back calls give size 4 with contents
1, 4, 3, 2 in order; assigning 99 at index 0 and 67 at index 1 gives iteration
order 99, 67, 3, 2; clear() gives size 0; and a final pop_back on the empty
vector is a no-op, leaving the state unchanged with size 0. -/
theorem end_to_end_scenario :
    demo6._size = 6 ∧
    demo4._size = 4 ∧
    iterVals demo4 = [some 1, some 4, some 3, some 2] ∧
    storeAt demo4 0 99 = .ok demoS1 ∧
    storeAt demoS1 1 67 = .ok demoS2 ∧
    iterVals demoS2 = [some 99, some 67, some 3, some 2] ∧
    demoCleared._size = 0 ∧
    demoFinal = demoCleared ∧
    demoFinal._size = 0 :=
  ⟨rfl, rfl, rfl, rfl, rfl, rfl, rfl, rfl, rfl⟩

/-- Claim C9: emplace_back increments the size by exactly 1 and returns a
reference to the element at index size - 1 after the call, the slot that holds
the newly constructed value. -/
theorem emplace_back_returns_new {l : List α} {v : Vector α} (h : Inv l v) (a : α) :
    (emplace_back v a).2 = (emplace_back v a).1._size - 1 ∧
    (emplace_back v a).1._size = v._size + 1 ∧
    (emplace_back v a).1._data.getD (emplace_back v a).2 none = some a := by
  obtain ⟨h1, h2, h3, _⟩ := ensure_spec h
  refine ⟨rfl, ?_, ?_⟩
  · show (ensure_capacity v).1._size + 1 = v._size + 1
    omega
  · show ((ensure_capacity v).1._data.set (ensure_capacity v).1._size (some a)).getD
      ((ensure_capacity v).1._size + 1 - 1) none = some a
    have hlt : (ensure_capacity v).1._size < (ensure_capacity v).1._data.length := by
      have h4 := h1.1
      omega
    have h5 : (ensure_capacity v).1._size + 1 - 1 = (ensure_capacity v).1._size := by
      omega
    rw [h5, List.getD_eq_getElem?_getD, List.getElem?_set_self hlt]
    rfl

/-- witness for emplace_back_returns_new: emplacing 9 onto a full one-element
vector holding 4 -/
theorem emplace_back_returns_new_witness :
    (emplace_back (⟨1, 1, [some (4 : Int)]⟩ : Vector Int) 9).2
        = (emplace_back (⟨1, 1, [some (4 : Int)]⟩ : Vector Int) 9).1._size - 1 ∧
      (emplace_back (⟨1, 1, [some (4 : Int)]⟩ : Vector Int) 9).1._size
        = (⟨1, 1, [some (4 : Int)]⟩ : Vector Int)._size + 1 ∧
      (emplace_back (⟨1, 1, [some (4 : Int)]⟩ : Vector Int) 9).1._data.getD
          (emplace_back (⟨1, 1, [some (4 : Int)]⟩ : Vector Int) 9).2 none = some 9 :=
  emplace_back_returns_new (l := [(4 : Int)]) (by decide) 9

/-- Claim C10: the copy constructor sets the capacity to the size of the source
(not its capacity) and allocates exactly when that is positive; copying an
empty container performs no allocation and yields capacity 0 and a null
buffer. -/
theorem copy_ctor_exact_capacity (v : Vector α) :
    (copyCtor v).1._capacity = v._size ∧
    (copyCtor v).2.alloc = (if 0 < v._size then 1 else 0) ∧
    (v._size = 0 →
      (copyCtor v).1._capacity = 0 ∧ (copyCtor v).1._data = [] ∧ (copyCtor v).2.alloc = 0) := by
  by_cases h0 : 0 < v._size
  · have hc : copyCtor v
        = (⟨v._size, v._size, blit v._data (List.replicate v._size none) v._size⟩,
           ⟨v._size, 0, 0, 1, 0⟩) := by
      unfold copyCtor
      rw [if_pos h0]
    rw [hc]
    refine ⟨rfl, ?_, fun hz => absurd hz (by omega)⟩
    rw [if_pos h0]
  · have hc : copyCtor v = (⟨v._size, 0, []⟩, noEff) := by
      unfold copyCtor
      rw [if_neg h0]
    rw [hc]
    refine ⟨rfl, ?_, fun hz => ⟨hz, rfl, rfl⟩⟩
    rw [if_neg h0]
    rfl

/-- witness for copy_ctor_exact_capacity: copying the default-constructed
vector yields the null buffer -/
theorem copy_ctor_exact_capacity_witness :
    (copyCtor (defaultVector : Vector Int)).1._data = [] :=
  ((copy_ctor_exact_capacity (defaultVector : Vector Int)).2.2 rfl).2.1

end VectorSpec
